import Mathlib

/-!
Shallow embedding of the battle-classification / leaderboard-diff engine of
POSHO-9000 (`src/index.ts`), together with proofs about it.

JavaScript strings are compared code unit by code unit; we model every string
operation the engine performs on the underlying character list (`String.data`),
which coincides with the JS semantics on the identifiers involved.  JavaScript
numbers that the engine rounds (`Math.round`, `Math.floor`) are modelled as
exact rationals with an explicit floor.
-/

namespace Posho9000

/-- `toID` from the source: lowercase the display name and strip every
character outside `[a-z0-9]`.  (The `id`/`userid` duck-typing branch only
re-selects the input string and is not needed here.) -/
def toID (text : String) : String :=
  String.mk ((text.data.map Char.toLower).filter (fun c => c.isLower || c.isDigit))

/-- JS `s.startsWith(p)`, on the character lists. -/
def strStartsWith (s p : String) : Bool :=
  p.data.isPrefixOf s.data

/-- `LeaderboardEntry` from the source.  `rank` is assigned (by mutation of the
shared object) only for entries whose identifier starts with the configured
prefix. -/
structure LeaderboardEntry where
  name : String
  rank : Option ℕ := none
  elo : ℤ
  gxe : ℚ
  glicko : ℤ
  glickodev : ℤ
deriving DecidableEq

/-- `Battle` from the source. -/
structure Battle where
  p1 : String
  p2 : String
  minElo : ℤ
deriving DecidableEq

/-- JS `Map.get`, on an insertion-ordered association list. -/
def mapGet {α : Type} (k : String) : List (String × α) → Option α
  | [] => none
  | (k', v) :: m => if k' = k then some v else mapGet k m

/-- JS `Map.set`: overwrite the first binding of the key in place, else append. -/
def mapSet {α : Type} (k : String) (v : α) : List (String × α) → List (String × α)
  | [] => [(k, v)]
  | (k', v') :: m => if k' = k then (k, v) :: m else (k', v') :: mapSet k v m

abbrev Lookup := List (String × LeaderboardEntry)

/-- `MINUTE = 60000` (milliseconds). -/
def MINUTE : ℚ := 60000

/-- `FACTOR = 1.5`. -/
def FACTOR : ℚ := 3 / 2

/-- JS `Math.round` (half rounds toward positive infinity). -/
def jsRound (q : ℚ) : ℤ := ⌊q + 1 / 2⌋

/-- The note emitted by `averageRating`. -/
def avgNote (r : ℤ) : String := ("(avg rating: ") ++ toString r ++ (")")

/-- The note emitted for the minimum-elo fallback in `getRating`. -/
def minNote (r : ℤ) : String := ("(min rating: ") ++ toString r ++ (")")

/-- `Client.averageRating`. -/
def averageRating (a b : ℤ) : ℤ × String :=
  let rating := jsRound ((a + b : ℚ) / 2)
  (rating, avgNote rating)

/-- `Client.getRating`: the sequential `if (p1 && p2) / if (p1 && p1.elo > minElo) /
if (p2 && p2.elo > minElo) / fallback` chain. -/
def getRating (lookup : Lookup) (battle : Battle) : ℤ × String :=
  match mapGet (toID battle.p1) lookup, mapGet (toID battle.p2) lookup with
  | some a, some b => averageRating a.elo b.elo
  | some a, none =>
    if battle.minElo < a.elo then averageRating a.elo battle.minElo
    else (battle.minElo, minNote battle.minElo)
  | none, some b =>
    if battle.minElo < b.elo then averageRating b.elo battle.minElo
    else (battle.minElo, minNote battle.minElo)
  | none, none => (battle.minElo, minNote battle.minElo)

/-- The engine state `Client.tracking` reads. -/
structure TrackState where
  users : List String
  pfx : String
  rating : ℤ
  cutoff : Option ℕ
  lookup : Lookup
deriving DecidableEq

/-- JS truthiness of `this.config.cutoff`. -/
def cutoffTruthy : Option ℕ → Bool
  | none => false
  | some n => n ≠ 0

/-- `a && a.rank && a.rank <= rank` for one looked-up player (`a.rank` of 0 would
be falsy, as would a missing entry or rank). -/
def rankWithin (e : Option LeaderboardEntry) (bound : ℚ) : Bool :=
  match e with
  | none => false
  | some a =>
    match a.rank with
    | none => false
    | some r => r ≠ 0 && decide ((r : ℚ) ≤ bound)

/-- `Client.tracking`: users rule, then prefix/rating rule, then cutoff rule. -/
def tracking (ts : TrackState) (battle : Battle) (rating : ℤ) : Bool :=
  let p1 := toID battle.p1
  let p2 := toID battle.p2
  if !ts.users.isEmpty && (ts.users.contains p1 || ts.users.contains p2) then
    true
  else if strStartsWith p1 ts.pfx || strStartsWith p2 ts.pfx then
    decide (ts.rating ≤ rating)
  else if cutoffTruthy ts.cutoff && (strStartsWith p1 ts.pfx && strStartsWith p2 ts.pfx) then
    rankWithin (mapGet p1 ts.lookup) ((ts.cutoff.getD 0 : ℚ) * FACTOR) &&
      rankWithin (mapGet p2 ts.lookup) ((ts.cutoff.getD 0 : ℚ) * FACTOR)
  else
    false

/-- `wait` exactly as `Client.leaderboardCooldown` computes it:
`Math.floor(+now - +this.cooldown / MINUTE)` — the division binds tighter than
the subtraction, so only the cooldown timestamp is divided by `MINUTE`. -/
def cooldownWait (now cooldown : ℤ) : ℤ :=
  ⌊(now : ℚ) - (cooldown : ℚ) / MINUTE⌋

/-- `Client.leaderboardCooldown` (timestamps in integer milliseconds). -/
def leaderboardCooldown (cooldown : Option ℤ) (now : ℤ) (changed : Bool)
    (linesThem linesTotal : ℤ) : Bool :=
  match cooldown with
  | none => true
  | some c =>
    let wait := cooldownWait now c
    let lines := if changed then linesThem else linesTotal
    if lines < 10 ∧ wait < 5 then false
    else
      let factor : ℤ := if changed then 6 else 1
      decide (60 ≤ factor * (wait + lines))

/-- Modelled from the spec: `wait` = elapsed minutes since the cooldown
timestamp, i.e. `Math.floor((+now - +this.cooldown) / MINUTE)`. -/
def specCooldownWait (now cooldown : ℤ) : ℤ :=
  ⌊((now : ℚ) - (cooldown : ℚ)) / MINUTE⌋

/-- The cooldown gate with `wait` as the spec defines it; otherwise identical
to `leaderboardCooldown`. -/
def specLeaderboardCooldown (cooldown : Option ℤ) (now : ℤ) (changed : Bool)
    (linesThem linesTotal : ℤ) : Bool :=
  match cooldown with
  | none => true
  | some c =>
    let wait := specCooldownWait now c
    let lines := if changed then linesThem else linesTotal
    if lines < 10 ∧ wait < 5 then false
    else
      let factor : ℤ := if changed then 6 else 1
      decide (60 ≤ factor * (wait + lines))

/-- A recorded rank change `[name, elo, oldrank, newrank]`; the JS `Infinity`
sentinel for a rank is `⊤`. -/
abbrev RankChange := String × ℤ × WithTop ℕ × WithTop ℕ

abbrev DiffMap := List (String × RankChange)

/-- A finite rank as a `WithTop ℕ`. -/
def rk (n : ℕ) : WithTop ℕ := (n : WithTop ℕ)

/-- `l.findIndex(e => toID(e.name) === id)`, as an option instead of `-1`. -/
def findIndexId (id : String) : List LeaderboardEntry → Option ℕ
  | [] => none
  | e :: l => if toID e.name = id then some 0 else (findIndexId id l).map (· + 1)

/-- Placeholder entry for the (never taken) out-of-bounds read in `getDiffs`. -/
def dummyEntry : LeaderboardEntry :=
  { name := "", rank := none, elo := 0, gxe := 0, glicko := 0, glickodev := 0 }

/-- The 1-based rank `findIndex(...) + 1` of `id` in `l`, with the not-found 0
replaced by `Infinity` as in the source. -/
def rankIn (id : String) (l : List LeaderboardEntry) : WithTop ℕ :=
  match findIndexId id l with
  | none => ⊤
  | some j => rk (j + 1)

/-- The elo `l[newrank - 1].elo` the source reads for a found `id`, 0 when absent. -/
def eloIn (id : String) (l : List LeaderboardEntry) : ℤ :=
  match findIndexId id l with
  | none => 0
  | some j => (l.getD j dummyEntry).elo

/-- First pass of `Client.getDiffs`: walk the previous list (`lastN`), position
`i` giving `oldrank = i + 1`, and record a change whenever the rank in
`current` differs. -/
def diffPass1 (current : List LeaderboardEntry) :
    List LeaderboardEntry → ℕ → DiffMap → DiffMap
  | [], _, m => m
  | player :: rest, i, m =>
    let id := toID player.name
    let m' :=
      if rk (i + 1) ≠ rankIn id current then
        mapSet id (player.name, eloIn id current, rk (i + 1), rankIn id current) m
      else m
    diffPass1 current rest (i + 1) m'

/-- Second pass of `Client.getDiffs`: symmetric walk over the current list
(`currentN`), with the entry's own (current) elo. -/
def diffPass2 (last : List LeaderboardEntry) :
    List LeaderboardEntry → ℕ → DiffMap → DiffMap
  | [], _, m => m
  | player :: rest, i, m =>
    let id := toID player.name
    let m' :=
      if rankIn id last ≠ rk (i + 1) then
        mapSet id (player.name, player.elo, rankIn id last, rk (i + 1)) m
      else m
    diffPass2 last rest (i + 1) m'

/-- `Client.getDiffs`.  A `num` of 0 is falsy in JS, so no slicing happens then;
the caller passing `n × 1.5` goes through `Array.prototype.slice`, which
truncates its argument, so the limit arrives as a natural number. -/
def getDiffs (last current : List LeaderboardEntry) (num : Option ℕ) : DiffMap :=
  let lastN := match num with
    | none => last
    | some n => if n = 0 then last else last.take n
  let currentN := match num with
    | none => current
    | some n => if n = 0 then current else current.take n
  diffPass2 last currentN 0 (diffPass1 current lastN 0 [])

/-- `${newrank === Infinity ? '?' : newrank}`. -/
def rankString (r : WithTop ℕ) : String :=
  if r = ⊤ then ("?") else toString (WithTop.untop' 0 r)

/-- The per-entry report line `${symbol}**${rank}.** ${message}` built by
`Client.trackChanges`. -/
def diffMessage (n : ℕ) (rc : RankChange) : String :=
  let symbol := if rc.2.2.1 < rc.2.2.2 then ("▼") else ("▲")
  let rank := rankString rc.2.2.2
  let rating := if rc.2.1 = 0 then ("?") else toString rc.2.1
  let message :=
    if rk n < rc.2.2.2 then ("__") ++ rc.1 ++ (" (") ++ rating ++ (")__")
    else rc.1 ++ (" (") ++ rating ++ (")")
  symbol ++ ("**") ++ rank ++ (".** ") ++ message

/-- The boundary test negated in `trackChanges`' loop:
`!((oldrank > n && newrank <= n) || (oldrank <= n && newrank > n))`. -/
def notCrossed (n : ℕ) (rc : RankChange) : Bool :=
  !(decide ((rk n < rc.2.2.1 ∧ rc.2.2.2 ≤ rk n) ∨ (rc.2.2.1 ≤ rk n ∧ rk n < rc.2.2.2)))

/-- Stable insertion, ascending in `newrank`, modelling the stable
`Array.prototype.sort` with comparator `a[3] - b[3]`. -/
def insertByNewrank (rc : RankChange) : List RankChange → List RankChange
  | [] => [rc]
  | x :: xs => if rc.2.2.2 < x.2.2.2 then rc :: x :: xs else x :: insertByNewrank rc xs

def sortByNewrank (l : List RankChange) : List RankChange :=
  l.foldl (fun acc rc => insertByNewrank rc acc) []

/-- One iteration of `trackChanges`' loop over the sorted changes: set the
`changed` flag when an entry did not cross the boundary, and (when displaying)
push its message. -/
def tcStep (n : ℕ) (display : Bool) (acc : Bool × List String) (rc : RankChange) :
    Bool × List String :=
  let acc1 := if notCrossed n rc then (true, acc.2) else acc
  if display then (acc1.1, acc1.2 ++ [diffMessage n rc]) else acc1

/-- `Client.trackChanges`, returning the updated `changed` flag, the message
list built by the loop, and the report sent when `display` is set. -/
def trackChanges (current : Option (List LeaderboardEntry)) (cutoff : Option ℕ)
    (changed : Bool) (leaderboard : List LeaderboardEntry) (display : Bool) :
    Bool × List String × Option String :=
  match current, cutoff with
  | some cur, some n =>
    if n = 0 then (changed, [], none)
    else
      let diffs := getDiffs cur leaderboard (some (3 * n / 2))
      if diffs.isEmpty then (changed, [], none)
      else
        let sorted := sortByNewrank (diffs.map (fun p => p.2))
        let acc := sorted.foldl (tcStep n display) (changed, [])
        (acc.1, acc.2, if display then some (String.intercalate (" ") acc.2) else none)
  | _, _ => (changed, [], none)

/-- One raw record of the pulled ladder `toplist`. -/
structure RawEntry where
  username : String
  userid : String
  elo : ℚ
  gxe : ℚ
  rpr : ℚ
  rprd : ℚ
deriving DecidableEq

/-- The loop of `Client.getLeaderboard`: every record goes into `lookup`
(keyed by the raw `userid`); records whose `userid` starts with the prefix are
also appended to the ranked list.  The JS code pushes the same object into both
containers and then mutates its `rank`, so the (conditional) rank is computed
before either insertion here. -/
def buildLeaderboard (pfx : String) :
    List RawEntry → List LeaderboardEntry → Lookup → List LeaderboardEntry × Lookup
  | [], ranked, lookup => (ranked, lookup)
  | data :: rest, ranked, lookup =>
    let entry : LeaderboardEntry :=
      { name := data.username
        rank := if strStartsWith data.userid pfx then some (ranked.length + 1) else none
        elo := jsRound data.elo
        gxe := data.gxe
        glicko := jsRound data.rpr
        glickodev := jsRound data.rprd }
    let lookup' := mapSet data.userid entry lookup
    let ranked' := if strStartsWith data.userid pfx then ranked ++ [entry] else ranked
    buildLeaderboard pfx rest ranked' lookup'

/-- `Client.getLeaderboard` on a successful pull: a fresh lookup map and the
prefix-filtered ranked list. -/
def getLeaderboard (pfx : String) (toplist : List RawEntry) :
    List LeaderboardEntry × Lookup :=
  buildLeaderboard pfx toplist [] []

/-- The engine state the scheduler tick touches. -/
structure Engine where
  lookup : Lookup
  current : Option (List LeaderboardEntry)
  last : Option (List LeaderboardEntry)
  changed : Bool
  pfx : String
  cutoff : Option ℕ
  showdiffs : Bool
deriving DecidableEq

/-- The leaderboard part of one `Client.start` tick (on a successful pull):
`getLeaderboard` has already replaced the lookup by the time the
`if (!leaderboard.length) return;` guard runs; only past that guard does
`trackChanges` run and `current` get replaced.  The second component is the
diff report emitted by `trackChanges` (the `/cmd roomlist` request is
transport traffic, not modelled). -/
def tick (e : Engine) (toplist : List RawEntry) : Engine × Option String :=
  let pulled := getLeaderboard e.pfx toplist
  let e1 : Engine := { e with lookup := pulled.2 }
  if pulled.1.length = 0 then (e1, none)
  else
    let tc := trackChanges e1.current e1.cutoff e1.changed pulled.1 e1.showdiffs
    ({ e1 with changed := tc.1, current := some pulled.1 }, tc.2.2)

/-- Scheduler state: `started` is the live interval handle, `tickTimers`
counts the armed main tick interval timers. -/
structure SchedState where
  started : Option ℕ
  tickTimers : ℕ
  nextHandle : ℕ
  current : Option (List LeaderboardEntry)
  last : Option (List LeaderboardEntry)
  reports : List String
  rating : ℤ
deriving DecidableEq

/-- `Client.start`: an immediate return when a tick timer is already armed,
otherwise report the status and arm one interval timer. -/
def startOp (s : SchedState) : SchedState :=
  if s.started.isSome then s
  else
    { s with
      reports := s.reports ++ [("/status ") ++ toString s.rating]
      started := some s.nextHandle
      tickTimers := s.tickTimers + 1
      nextHandle := s.nextHandle + 1 }

/-- `Client.stop`: only when a timer is armed, clear it, report, and discard
both retained snapshots. -/
def stopOp (s : SchedState) : SchedState :=
  match s.started with
  | none => s
  | some _ =>
    { s with
      started := none
      tickTimers := s.tickTimers - 1
      reports := s.reports ++ [("/status (STOPPED) ") ++ toString s.rating]
      current := none
      last := none }

inductive SchedOp
  | start
  | stop
deriving DecidableEq

def applyOp (s : SchedState) : SchedOp → SchedState
  | .start => startOp s
  | .stop => stopOp s

def runOps (s : SchedState) : List SchedOp → SchedState
  | [] => s
  | op :: ops => runOps (applyOp s op) ops

/-- The scheduler's initial state: stopped, no timers armed. -/
def initSched (rating : ℤ) : SchedState :=
  { started := none, tickTimers := 0, nextHandle := 0, current := none, last := none,
    reports := [], rating := rating }

/-- JS: `skipid && skipid >= roomid` (an empty string is falsy; `>=` is
code-unit lexicographic comparison). -/
def skipCheck (skipid : Option String) (roomid : String) : Bool :=
  match skipid with
  | none => false
  | some s => decide (s ≠ ("")) && decide (roomid.data ≤ s.data)

/-- JS: `if (!this.lastid || this.lastid < roomid) this.lastid = roomid`. -/
def updateLastid (lastid : Option String) (roomid : String) : Option String :=
  match lastid with
  | none => some roomid
  | some s => if s = ("") ∨ s.data < roomid.data then some roomid else some s

/-- The loop of `Client.onQueryresponse`: `skipid` is the cycle-start value of
`lastid`; a battle is reported when it is tracked and not skipped, and then the
high-water mark is raised.  Returns the final `lastid` and the reported room
ids in order. -/
def onQueryresponseLoop (ts : TrackState) (skipid : Option String) :
    List (String × Battle) → Option String → Option String × List String
  | [], lastid => (lastid, [])
  | (roomid, battle) :: rest, lastid =>
    let rating := (getRating ts.lookup battle).1
    if !tracking ts battle rating || skipCheck skipid roomid then
      onQueryresponseLoop ts skipid rest lastid
    else
      let res := onQueryresponseLoop ts skipid rest (updateLastid lastid roomid)
      (res.1, roomid :: res.2)

/-- `Client.onQueryresponse` for one pull cycle. -/
def onQueryresponse (ts : TrackState) (lastid : Option String)
    (rooms : List (String × Battle)) : Option String × List String :=
  onQueryresponseLoop ts lastid rooms lastid

/-- A sequence of pull cycles: the tracking configuration may change between
pulls, but `lastid` is threaded through (the source never clears it). -/
def runPulls : Option String → List (TrackState × List (String × Battle)) →
    Option String × List String
  | lastid, [] => (lastid, [])
  | lastid, (ts, rooms) :: rest =>
    let res := onQueryresponse ts lastid rooms
    let res' := runPulls res.1 rest
    (res'.1, res.2 ++ res'.2)

/-- Digit-string value, for the model of the `Number()` builtin. -/
def digitsToNat (l : List Char) : ℕ :=
  l.foldl (fun acc c => 10 * acc + (c.toNat - 48)) 0

/-- Model of the JS `Number()` builtin on the arguments relevant to the `.elo`
command: the empty string parses to 0 (as `Number('')` does), a nonempty digit
string to its decimal value, and anything else to NaN (`none`). -/
def jsNumber (s : String) : Option ℚ :=
  if s = ("") then some 0
  else if s.data.all Char.isDigit then some ((digitsToNat s.data : ℕ) : ℚ)
  else none

/-- The `elo`/`rating` command body: `const rating = Number(argument);
if (rating) { this.rating = rating; ... }` — NaN and 0 are falsy, so the stored
rating only changes when the argument parses to a nonzero number. -/
def onChatRating (rating : ℚ) (argument : String) : ℚ :=
  match jsNumber argument with
  | none => rating
  | some q => if q ≠ 0 then q else rating

/-! ### Concrete data used by the evaluation theorems below -/

def eLtaa : LeaderboardEntry :=
  { name := "ltaa", rank := some 1, elo := 1000, gxe := 0, glicko := 0, glickodev := 0 }

def eLtbb : LeaderboardEntry :=
  { name := "ltbb", rank := some 2, elo := 1000, gxe := 0, glicko := 0, glickodev := 0 }

/-- No tracked users, prefix `lt`, minimum rating 1500, cutoff 10, both players
ranked 1 and 2. -/
def exTS2 : TrackState :=
  { users := [], pfx := "lt", rating := 1500, cutoff := some 10,
    lookup := [(("ltaa"), eLtaa), (("ltbb"), eLtbb)] }

def exBattle2 : Battle := { p1 := "ltaa", p2 := "ltbb", minElo := 1000 }

end Posho9000

namespace Posho9000

/-! ### Small lemmas about ranks and maps -/

theorem rk_inj {a b : ℕ} : rk a = rk b ↔ a = b := WithTop.coe_inj

theorem rk_ne_top (n : ℕ) : rk n ≠ ⊤ := WithTop.coe_ne_top

theorem rk_lt {a b : ℕ} : rk a < rk b ↔ a < b := WithTop.coe_lt_coe

theorem rk_lt_top (n : ℕ) : rk n < ⊤ := WithTop.coe_lt_top n

theorem mapGet_mapSet_self {α : Type} (k : String) (v : α) (m : List (String × α)) :
    mapGet k (mapSet k v m) = some v := by
  induction m with
  | nil => simp [mapSet, mapGet]
  | cons p m ih =>
    obtain ⟨k', v'⟩ := p
    by_cases h : k' = k
    · simp [mapSet, h, mapGet]
    · simp [mapSet, h, mapGet, ih]

theorem mapGet_mapSet_ne {α : Type} {k k' : String} (hk : k' ≠ k) (v : α)
    (m : List (String × α)) : mapGet k' (mapSet k v m) = mapGet k' m := by
  have hk2 : ¬ k = k' := fun h => hk h.symm
  induction m with
  | nil => simp [mapSet, mapGet, hk2]
  | cons p m ih =>
    obtain ⟨k'', v''⟩ := p
    by_cases h : k'' = k
    · subst h
      simp [mapSet, mapGet, hk2]
    · simp only [mapSet, if_neg h, mapGet]
      by_cases h2 : k'' = k'
      · simp [h2]
      · simp [h2, ih]

/-! ### Claim C1 -/

/-- Claim C1 (code bug): the source computes
`wait = Math.floor(+now - +this.cooldown / MINUTE)` — the claimed
"elapsed minutes since the cooldown timestamp" would be
`Math.floor((+now - +this.cooldown) / MINUTE)`.  At `now = cooldown`
(immediately after a successful display, with both line counters 0) the code
allows the second request, while the claim requires rejection; the
spec-modelled gate rejects it and behaves as the claim states on the
`wait = 5, lines = 55` example (where the code also allows). -/
theorem C1_cooldown_gate_divergence :
    leaderboardCooldown (some 1600000000000) 1600000000000 false 0 0 = true
    ∧ specLeaderboardCooldown (some 1600000000000) 1600000000000 false 0 0 = false
    ∧ specLeaderboardCooldown (some 1600000000000) (1600000000000 + 5 * 60000) false 0 55 = true
    ∧ leaderboardCooldown (some 1600000000000) (1600000000000 + 5 * 60000) false 0 55 = true := by
  have h1 : cooldownWait 1600000000000 1600000000000 = 1599973333333 := by
    norm_num [cooldownWait, MINUTE]
  have h2 : specCooldownWait 1600000000000 1600000000000 = 0 := by
    norm_num [specCooldownWait, MINUTE]
  have h3 : specCooldownWait (1600000000000 + 5 * 60000) 1600000000000 = 5 := by
    norm_num [specCooldownWait, MINUTE]
  have h4 : cooldownWait (1600000000000 + 5 * 60000) 1600000000000 = 1599973633333 := by
    norm_num [cooldownWait, MINUTE]
  refine ⟨?_, ?_, ?_, ?_⟩
  · simp only [leaderboardCooldown, h1]
    norm_num
  · simp only [specLeaderboardCooldown, h2]
    norm_num
  · simp only [specLeaderboardCooldown, h3]
    norm_num
  · simp only [leaderboardCooldown, h4]
    norm_num

/-! ### Claim C2 -/

/-- Claim C2 (code bug): the cutoff rule of `Client.tracking` is unreachable.
With no tracked users, cutoff 10, both players' ids starting with the prefix
and ranked 1 and 2 (well within `cutoff × 1.5 = 15`), and a computed rating of
1000 below the minimum rating 1500, the battle is NOT reported: the
either-player prefix rule fires first and returns `rating >= this.rating`,
contradicting the code's own comment ("Report if a cutoff has been set and
both prefixed players are within a factor of the cutoff") and the claim. -/
theorem C2_cutoff_branch_dead :
    exTS2.users = []
    ∧ (getRating exTS2.lookup exBattle2).1 = 1000
    ∧ (1000 : ℤ) < exTS2.rating
    ∧ cutoffTruthy exTS2.cutoff = true
    ∧ strStartsWith (toID exBattle2.p1) exTS2.pfx = true
    ∧ strStartsWith (toID exBattle2.p2) exTS2.pfx = true
    ∧ rankWithin (mapGet (toID exBattle2.p1) exTS2.lookup) ((10 : ℚ) * FACTOR) = true
    ∧ rankWithin (mapGet (toID exBattle2.p2) exTS2.lookup) ((10 : ℚ) * FACTOR) = true
    ∧ tracking exTS2 exBattle2 (getRating exTS2.lookup exBattle2).1 = false := by
  have hp1 : mapGet (toID exBattle2.p1) exTS2.lookup = some eLtaa := by decide
  have hp2 : mapGet (toID exBattle2.p2) exTS2.lookup = some eLtbb := by decide
  have hr : (getRating exTS2.lookup exBattle2).1 = 1000 := by
    rw [getRating, hp1, hp2]
    show (averageRating eLtaa.elo eLtbb.elo).1 = 1000
    norm_num [averageRating, jsRound, eLtaa, eLtbb]
  refine ⟨rfl, hr, by decide, by decide, by decide, by decide, ?_, ?_, ?_⟩
  · rw [hp1]
    show ((1 : ℕ) ≠ 0 && decide (((1 : ℕ) : ℚ) ≤ (10 : ℚ) * FACTOR)) = true
    norm_num [FACTOR]
  · rw [hp2]
    show ((2 : ℕ) ≠ 0 && decide (((2 : ℕ) : ℚ) ≤ (10 : ℚ) * FACTOR)) = true
    norm_num [FACTOR]
  · rw [hr]
    decide

/-! ### Characterizing the two passes of `getDiffs` -/

theorem findIndexId_eq_none_iff {id : String} {l : List LeaderboardEntry} :
    findIndexId id l = none ↔ ∀ e ∈ l, toID e.name ≠ id := by
  induction l with
  | nil => simp [findIndexId]
  | cons e l ih =>
    by_cases h : toID e.name = id
    · simp [findIndexId, h]
    · simp [findIndexId, h, ih]

theorem rankIn_eq_top {id : String} {l : List LeaderboardEntry}
    (h : findIndexId id l = none) : rankIn id l = ⊤ := by
  simp [rankIn, h]

theorem rankIn_eq_rk {id : String} {l : List LeaderboardEntry} {j : ℕ}
    (h : findIndexId id l = some j) : rankIn id l = rk (j + 1) := by
  simp [rankIn, h]

theorem eloIn_eq_zero {id : String} {l : List LeaderboardEntry}
    (h : findIndexId id l = none) : eloIn id l = 0 := by
  simp [eloIn, h]

theorem top_ne_rk (n : ℕ) : (⊤ : WithTop ℕ) ≠ rk n := (rk_ne_top n).symm

theorem diffPass1_mapGet_none {current : List LeaderboardEntry} {id : String} :
    ∀ {rest : List LeaderboardEntry} {i : ℕ} {m : DiffMap},
      findIndexId id rest = none →
      mapGet id (diffPass1 current rest i m) = mapGet id m := by
  intro rest
  induction rest with
  | nil =>
    intro i m _
    rfl
  | cons p rest ih =>
    intro i m h
    by_cases hp : toID p.name = id
    · rw [findIndexId, if_pos hp] at h
      exact absurd h (by simp)
    · rw [findIndexId, if_neg hp, Option.map_eq_none'] at h
      simp only [diffPass1]
      rw [ih h]
      split_ifs with hc
      · exact mapGet_mapSet_ne (Ne.symm hp) _ m
      · rfl

theorem diffPass1_mapGet_some {current : List LeaderboardEntry} {id : String} :
    ∀ {rest : List LeaderboardEntry} {i : ℕ} {m : DiffMap} {j : ℕ},
      (rest.map (fun e => toID e.name)).Nodup →
      findIndexId id rest = some j →
      mapGet id (diffPass1 current rest i m) =
        if rk (i + j + 1) ≠ rankIn id current then
          some ((rest.getD j dummyEntry).name, eloIn id current, rk (i + j + 1),
            rankIn id current)
        else mapGet id m := by
  intro rest
  induction rest with
  | nil =>
    intro i m j _ h
    exact absurd h (by simp [findIndexId])
  | cons p rest ih =>
    intro i m j hnd h
    rw [List.map_cons, List.nodup_cons] at hnd
    by_cases hp : toID p.name = id
    · rw [findIndexId, if_pos hp] at h
      injection h with h0
      subst h0
      have hrest : findIndexId id rest = none := by
        rw [findIndexId_eq_none_iff]
        intro e he hcontra
        have hmem : toID e.name ∈ rest.map (fun e => toID e.name) :=
          List.mem_map_of_mem _ he
        rw [hcontra, ← hp] at hmem
        exact hnd.1 hmem
      simp only [diffPass1]
      rw [diffPass1_mapGet_none hrest, hp]
      simp only [Nat.add_zero, List.getD_cons_zero]
      split_ifs with hc
      · exact mapGet_mapSet_self id _ m
      · rfl
    · rw [findIndexId, if_neg hp, Option.map_eq_some'] at h
      obtain ⟨j', hj', rfl⟩ := h
      simp only [diffPass1]
      rw [ih hnd.2 hj']
      have harith : i + 1 + j' + 1 = i + (j' + 1) + 1 := by omega
      rw [harith, List.getD_cons_succ]
      split_ifs with hc hw
      · rfl
      · exact mapGet_mapSet_ne (Ne.symm hp) _ m
      · rfl

theorem diffPass2_mapGet_none {last : List LeaderboardEntry} {id : String} :
    ∀ {rest : List LeaderboardEntry} {i : ℕ} {m : DiffMap},
      findIndexId id rest = none →
      mapGet id (diffPass2 last rest i m) = mapGet id m := by
  intro rest
  induction rest with
  | nil =>
    intro i m _
    rfl
  | cons p rest ih =>
    intro i m h
    by_cases hp : toID p.name = id
    · rw [findIndexId, if_pos hp] at h
      exact absurd h (by simp)
    · rw [findIndexId, if_neg hp, Option.map_eq_none'] at h
      simp only [diffPass2]
      rw [ih h]
      split_ifs with hc
      · exact mapGet_mapSet_ne (Ne.symm hp) _ m
      · rfl

theorem diffPass2_mapGet_some {last : List LeaderboardEntry} {id : String} :
    ∀ {rest : List LeaderboardEntry} {i : ℕ} {m : DiffMap} {j : ℕ},
      (rest.map (fun e => toID e.name)).Nodup →
      findIndexId id rest = some j →
      mapGet id (diffPass2 last rest i m) =
        if rankIn id last ≠ rk (i + j + 1) then
          some ((rest.getD j dummyEntry).name, (rest.getD j dummyEntry).elo,
            rankIn id last, rk (i + j + 1))
        else mapGet id m := by
  intro rest
  induction rest with
  | nil =>
    intro i m j _ h
    exact absurd h (by simp [findIndexId])
  | cons p rest ih =>
    intro i m j hnd h
    rw [List.map_cons, List.nodup_cons] at hnd
    by_cases hp : toID p.name = id
    · rw [findIndexId, if_pos hp] at h
      injection h with h0
      subst h0
      have hrest : findIndexId id rest = none := by
        rw [findIndexId_eq_none_iff]
        intro e he hcontra
        have hmem : toID e.name ∈ rest.map (fun e => toID e.name) :=
          List.mem_map_of_mem _ he
        rw [hcontra, ← hp] at hmem
        exact hnd.1 hmem
      simp only [diffPass2]
      rw [diffPass2_mapGet_none hrest, hp]
      simp only [Nat.add_zero, List.getD_cons_zero]
      split_ifs with hc
      · exact mapGet_mapSet_self id _ m
      · rfl
    · rw [findIndexId, if_neg hp, Option.map_eq_some'] at h
      obtain ⟨j', hj', rfl⟩ := h
      simp only [diffPass2]
      rw [ih hnd.2 hj']
      have harith : i + 1 + j' + 1 = i + (j' + 1) + 1 := by omega
      rw [harith, List.getD_cons_succ]
      split_ifs with hc hw
      · rfl
      · exact mapGet_mapSet_ne (Ne.symm hp) _ m
      · rfl

theorem getD_mem_of_lt {α : Type} (l : List α) (d : α) :
    ∀ k, k < l.length → l.getD k d ∈ l := by
  induction l with
  | nil =>
    intro k hk
    simp at hk
  | cons a l ih =>
    intro k hk
    cases k with
    | zero => simp
    | succ k =>
      simp only [List.getD_cons_succ]
      exact List.mem_cons_of_mem _ (ih k (by simpa using hk))

theorem findIndexId_self {l : List LeaderboardEntry}
    (h : (l.map (fun e => toID e.name)).Nodup) :
    ∀ k, k < l.length → findIndexId (toID (l.getD k dummyEntry).name) l = some k := by
  induction l with
  | nil =>
    intro k hk
    simp at hk
  | cons e l ih =>
    rw [List.map_cons, List.nodup_cons] at h
    intro k hk
    cases k with
    | zero => simp [findIndexId]
    | succ k =>
      have hk' : k < l.length := by simpa using hk
      have hmem : toID ((l.getD k dummyEntry).name) ∈ l.map (fun e => toID e.name) :=
        List.mem_map_of_mem _ (getD_mem_of_lt l dummyEntry k hk')
      have hne : toID e.name ≠ toID ((l.getD k dummyEntry).name) := by
        intro hcontra
        rw [← hcontra] at hmem
        exact h.1 hmem
      simp only [List.getD_cons_succ, findIndexId, if_neg hne, ih h.2 k hk', Option.map_some']

theorem diffPass1_self {current : List LeaderboardEntry} :
    ∀ {rest : List LeaderboardEntry} {i : ℕ} {m : DiffMap},
      (∀ k, k < rest.length →
        findIndexId (toID (rest.getD k dummyEntry).name) current = some (i + k)) →
      diffPass1 current rest i m = m := by
  intro rest
  induction rest with
  | nil =>
    intro i m _
    rfl
  | cons p rest ih =>
    intro i m hag
    have h0 : findIndexId (toID p.name) current = some i := by
      have := hag 0 (by simp)
      simpa using this
    simp only [diffPass1]
    rw [rankIn_eq_rk h0, if_neg (by simp)]
    exact ih (fun k hk => by
      have := hag (k + 1) (by simpa using Nat.succ_lt_succ hk)
      rw [List.getD_cons_succ] at this
      rw [this]
      congr 1
      omega)

theorem diffPass2_self {last : List LeaderboardEntry} :
    ∀ {rest : List LeaderboardEntry} {i : ℕ} {m : DiffMap},
      (∀ k, k < rest.length →
        findIndexId (toID (rest.getD k dummyEntry).name) last = some (i + k)) →
      diffPass2 last rest i m = m := by
  intro rest
  induction rest with
  | nil =>
    intro i m _
    rfl
  | cons p rest ih =>
    intro i m hag
    have h0 : findIndexId (toID p.name) last = some i := by
      have := hag 0 (by simp)
      simpa using this
    simp only [diffPass2]
    rw [rankIn_eq_rk h0, if_neg (by simp)]
    exact ih (fun k hk => by
      have := hag (k + 1) (by simpa using Nat.succ_lt_succ hk)
      rw [List.getD_cons_succ] at this
      rw [this]
      congr 1
      omega)

/-! ### Claim C4 -/

/-- Claim C4: with no limit (and one entry per identifier in each list, as the
snapshot builder produces), `getDiffs` records an identifier iff its 1-based
rank differs between the two lists (absent = the `Infinity` sentinel `⊤`); an
identifier present in `previous` but absent from `current` is recorded with
new-rank `⊤` and elo 0; and the diff of two identical lists is empty. -/
theorem C4_rank_diff_postcondition (last current : List LeaderboardEntry)
    (hL : (last.map (fun e => toID e.name)).Nodup)
    (hC : (current.map (fun e => toID e.name)).Nodup) :
    (∀ id : String,
        mapGet id (getDiffs last current none) ≠ none ↔
          rankIn id last ≠ rankIn id current)
    ∧ (∀ (id : String) (j : ℕ), findIndexId id last = some j →
        findIndexId id current = none →
        mapGet id (getDiffs last current none) =
          some ((last.getD j dummyEntry).name, 0, rk (j + 1), (⊤ : WithTop ℕ)))
    ∧ (last = current → getDiffs last current none = []) := by
  have hD : getDiffs last current none
      = diffPass2 last current 0 (diffPass1 current last 0 []) := rfl
  refine ⟨?_, ?_, ?_⟩
  · intro id
    rw [hD]
    cases hc : findIndexId id current with
    | none =>
      rw [diffPass2_mapGet_none hc]
      cases hl : findIndexId id last with
      | none =>
        rw [diffPass1_mapGet_none hl, rankIn_eq_top hc, rankIn_eq_top hl]
        simp [mapGet]
      | some j =>
        rw [diffPass1_mapGet_some hL hl, rankIn_eq_top hc, rankIn_eq_rk hl]
        simp [rk_ne_top]
    | some k =>
      rw [diffPass2_mapGet_some hC hc, rankIn_eq_rk hc]
      cases hl : findIndexId id last with
      | none =>
        rw [rankIn_eq_top hl]
        simp [top_ne_rk]
      | some j =>
        rw [rankIn_eq_rk hl, diffPass1_mapGet_some hL hl, rankIn_eq_rk hc]
        simp only [Nat.zero_add]
        by_cases hjk : rk (j + 1) = rk (k + 1)
        · simp [hjk, mapGet]
        · simp [hjk]
  · intro id j hl hc
    rw [hD, diffPass2_mapGet_none hc, diffPass1_mapGet_some hL hl, rankIn_eq_top hc,
      eloIn_eq_zero hc]
    simp [rk_ne_top]
  · intro heq
    subst heq
    have h1 : diffPass1 last last 0 [] = ([] : DiffMap) :=
      diffPass1_self (fun k hk => by simpa using findIndexId_self hL k hk)
    have h2 : diffPass2 last last 0 ([] : DiffMap) = [] :=
      diffPass2_self (fun k hk => by simpa using findIndexId_self hL k hk)
    rw [hD, h1, h2]

def e4a : LeaderboardEntry :=
  { name := "a", rank := none, elo := 1000, gxe := 0, glicko := 0, glickodev := 0 }

def e4b : LeaderboardEntry :=
  { name := "b", rank := none, elo := 1001, gxe := 0, glicko := 0, glickodev := 0 }

def e4bNew : LeaderboardEntry :=
  { name := "b", rank := none, elo := 1002, gxe := 0, glicko := 0, glickodev := 0 }

def exL4a : List LeaderboardEntry := [e4a, e4b]

def exL4b : List LeaderboardEntry := [e4bNew]

/-- Witness for C4: the previous list `[a, b]` against the current list `[b]`;
`a` dropped off and is reported with new-rank `⊤` and elo 0. -/
theorem C4_rank_diff_witness :
    ((exL4a.map (fun e => toID e.name)).Nodup ∧ (exL4b.map (fun e => toID e.name)).Nodup)
    ∧ (mapGet ("a") (getDiffs exL4a exL4b none) ≠ none ↔
        rankIn ("a") exL4a ≠ rankIn ("a") exL4b)
    ∧ mapGet ("a") (getDiffs exL4a exL4b none) =
        some ((exL4a.getD 0 dummyEntry).name, 0, rk 1, (⊤ : WithTop ℕ)) :=
  ⟨⟨by decide, by decide⟩,
   (C4_rank_diff_postcondition exL4a exL4b (by decide) (by decide)).1 ("a"),
   (C4_rank_diff_postcondition exL4a exL4b (by decide) (by decide)).2.1 ("a") 0
     (by decide) (by decide)⟩

/-! ### Claim C5: the snapshot builder -/

theorem getD_append_lt {α : Type} (d : α) :
    ∀ (l l2 : List α) (k : ℕ), k < l.length → (l ++ l2).getD k d = l.getD k d := by
  intro l
  induction l with
  | nil =>
    intro l2 k hk
    simp at hk
  | cons a l ih =>
    intro l2 k hk
    cases k with
    | zero => rfl
    | succ k =>
      simp only [List.cons_append, List.getD_cons_succ]
      exact ih l2 k (by simpa using hk)

theorem getD_append_length {α : Type} (d a : α) :
    ∀ l : List α, (l ++ [a]).getD l.length d = a := by
  intro l
  induction l with
  | nil => rfl
  | cons x l ih =>
    simp only [List.cons_append, List.length_cons, List.getD_cons_succ]
    exact ih

theorem buildLeaderboard_rank_aux :
    ∀ (rest : List RawEntry) (pfx : String) (ranked : List LeaderboardEntry) (lookup : Lookup),
      (∀ k, k < ranked.length → (ranked.getD k dummyEntry).rank = some (k + 1)) →
      ∀ k, k < (buildLeaderboard pfx rest ranked lookup).1.length →
        ((buildLeaderboard pfx rest ranked lookup).1.getD k dummyEntry).rank = some (k + 1) := by
  intro rest
  induction rest with
  | nil =>
    intro pfx ranked lookup h
    exact h
  | cons data rest ih =>
    intro pfx ranked lookup h
    simp only [buildLeaderboard]
    by_cases hs : strStartsWith data.userid pfx = true
    · simp only [if_pos hs]
      apply ih
      intro k hk
      rw [List.length_append, List.length_singleton] at hk
      rcases Nat.lt_or_ge k ranked.length with hlt | hge
      · rw [getD_append_lt _ _ _ _ hlt]
        exact h k hlt
      · have hk0 : k = ranked.length := by omega
        subst hk0
        rw [getD_append_length]
    · simp only [if_neg hs]
      exact ih pfx ranked _ h

theorem buildLeaderboard_map :
    ∀ (rest : List RawEntry) (pfx : String) (ranked : List LeaderboardEntry) (lookup : Lookup),
      ((buildLeaderboard pfx rest ranked lookup).1).map (fun e => (e.name, e.elo))
        = ranked.map (fun e => (e.name, e.elo))
          ++ (rest.filter (fun d => strStartsWith d.userid pfx)).map
              (fun d => (d.username, jsRound d.elo)) := by
  intro rest
  induction rest with
  | nil =>
    intro pfx ranked lookup
    simp [buildLeaderboard]
  | cons data rest ih =>
    intro pfx ranked lookup
    simp only [buildLeaderboard, List.filter_cons]
    by_cases hs : strStartsWith data.userid pfx = true
    · simp only [if_pos hs, ih]
      simp [List.map_append]
    · simp only [if_neg hs, ih]

theorem buildLeaderboard_lookup :
    ∀ (rest : List RawEntry) (pfx : String) (ranked : List LeaderboardEntry) (lookup : Lookup),
      (rest.map (fun d => d.userid)).Nodup →
      (∀ e ∈ ranked, ∃ k, k ∉ rest.map (fun d => d.userid) ∧ mapGet k lookup = some e) →
      ∀ e ∈ (buildLeaderboard pfx rest ranked lookup).1,
        ∃ k, mapGet k (buildLeaderboard pfx rest ranked lookup).2 = some e := by
  intro rest
  induction rest with
  | nil =>
    intro pfx ranked lookup _ h e he
    obtain ⟨k, _, hk⟩ := h e he
    exact ⟨k, hk⟩
  | cons data rest ih =>
    intro pfx ranked lookup hnd h
    rw [List.map_cons, List.nodup_cons] at hnd
    simp only [buildLeaderboard]
    apply ih pfx _ _ hnd.2
    intro e he
    have hold : e ∈ ranked →
        ∃ k, k ∉ rest.map (fun d => d.userid) ∧
          mapGet k (mapSet data.userid
            { name := data.username
              rank := if strStartsWith data.userid pfx then some (ranked.length + 1) else none
              elo := jsRound data.elo
              gxe := data.gxe
              glicko := jsRound data.rpr
              glickodev := jsRound data.rprd } lookup) = some e := by
      intro hmem
      obtain ⟨k, hk1, hk2⟩ := h e hmem
      rw [List.map_cons, List.mem_cons] at hk1
      push_neg at hk1
      refine ⟨k, hk1.2, ?_⟩
      rw [mapGet_mapSet_ne hk1.1 _ lookup]
      exact hk2
    by_cases hs : strStartsWith data.userid pfx = true
    · rw [if_pos hs] at he
      rcases List.mem_append.mp he with hmem | hmem
      · exact hold hmem
      · rw [List.mem_singleton] at hmem
        subst hmem
        exact ⟨data.userid, hnd.1, mapGet_mapSet_self _ _ lookup⟩
    · rw [if_neg hs] at he
      exact hold he

/-- Claim C5: the built snapshot assigns `rank = i + 1` at every ranked index
`i`, its ranked sequence consists (in input order) of exactly the records whose
identifier starts with the prefix, and (with one record per identifier, as the
ladder supplies) every ranked entry also appears in the unfiltered lookup —
as the very same entry, so in particular with an identical elo value. -/
theorem C5_snapshot_invariant (toplist : List RawEntry) (pfx : String)
    (h : (toplist.map (fun d => d.userid)).Nodup) :
    (∀ k, k < (getLeaderboard pfx toplist).1.length →
        (((getLeaderboard pfx toplist).1).getD k dummyEntry).rank = some (k + 1))
    ∧ ((getLeaderboard pfx toplist).1).map (fun e => (e.name, e.elo))
        = (toplist.filter (fun d => strStartsWith d.userid pfx)).map
            (fun d => (d.username, jsRound d.elo))
    ∧ ∀ e ∈ (getLeaderboard pfx toplist).1,
        ∃ k, mapGet k (getLeaderboard pfx toplist).2 = some e := by
  refine ⟨?_, ?_, ?_⟩
  · apply buildLeaderboard_rank_aux toplist pfx [] []
    intro k hk
    simp at hk
  · have hmap := buildLeaderboard_map toplist pfx [] []
    simpa using hmap
  · apply buildLeaderboard_lookup toplist pfx [] [] h
    intro e he
    simp at he

def exToplist5 : List RawEntry :=
  [{ username := "LT Alpha", userid := "ltalpha", elo := 1000, gxe := 50, rpr := 1500, rprd := 40 },
   { username := "Zed", userid := "zed", elo := 1200, gxe := 60, rpr := 1600, rprd := 30 }]

/-- Witness for C5 on a two-record pull with prefix `lt`. -/
theorem C5_snapshot_witness :
    (exToplist5.map (fun d => d.userid)).Nodup
    ∧ (∀ k, k < (getLeaderboard ("lt") exToplist5).1.length →
        (((getLeaderboard ("lt") exToplist5).1).getD k dummyEntry).rank = some (k + 1))
    ∧ ∀ e ∈ (getLeaderboard ("lt") exToplist5).1,
        ∃ k, mapGet k (getLeaderboard ("lt") exToplist5).2 = some e :=
  ⟨by decide,
   (C5_snapshot_invariant exToplist5 ("lt") (by decide)).1,
   (C5_snapshot_invariant exToplist5 ("lt") (by decide)).2.2⟩

/-! ### Claim C3: trackChanges does not post-filter the report -/

theorem insertByNewrank_length (rc : RankChange) :
    ∀ l : List RankChange, (insertByNewrank rc l).length = l.length + 1 := by
  intro l
  induction l with
  | nil => rfl
  | cons x xs ih =>
    simp only [insertByNewrank]
    split_ifs
    · simp
    · simp [ih]

theorem sortByNewrank_length (l : List RankChange) :
    (sortByNewrank l).length = l.length := by
  suffices h : ∀ (l acc : List RankChange),
      (l.foldl (fun acc rc => insertByNewrank rc acc) acc).length = acc.length + l.length by
    simpa using h l []
  intro l
  induction l with
  | nil =>
    intro acc
    simp
  | cons x xs ih =>
    intro acc
    simp only [List.foldl_cons]
    rw [ih (insertByNewrank x acc), insertByNewrank_length, List.length_cons]
    omega

theorem tcStep_snd_length (n : ℕ) (acc : Bool × List String) (x : RankChange) :
    ((tcStep n true acc x).2).length = acc.2.length + 1 := by
  simp only [tcStep]
  split_ifs <;> simp

theorem tcStep_fold_length (n : ℕ) :
    ∀ (l : List RankChange) (acc : Bool × List String),
      ((l.foldl (tcStep n true) acc).2).length = acc.2.length + l.length := by
  intro l
  induction l with
  | nil =>
    intro acc
    simp
  | cons x xs ih =>
    intro acc
    simp only [List.foldl_cons]
    rw [ih (tcStep n true acc x), tcStep_snd_length, List.length_cons]
    omega

def eA3 : LeaderboardEntry :=
  { name := "a", rank := some 1, elo := 1000, gxe := 0, glicko := 0, glickodev := 0 }

def eB3 : LeaderboardEntry :=
  { name := "b", rank := some 2, elo := 1050, gxe := 0, glicko := 0, glickodev := 0 }

def eC3e : LeaderboardEntry :=
  { name := "c", rank := some 3, elo := 900, gxe := 0, glicko := 0, glickodev := 0 }

def exCur3 : List LeaderboardEntry := [eA3, eB3, eC3e]

def exLb3 : List LeaderboardEntry :=
  [{ name := "b", rank := some 1, elo := 1060, gxe := 0, glicko := 0, glickodev := 0 },
   { name := "a", rank := some 2, elo := 1010, gxe := 0, glicko := 0, glickodev := 0 },
   { name := "c", rank := some 3, elo := 905, gxe := 0, glicko := 0, glickodev := 0 }]

/-- Counterexample to C3: with cutoff boundary `n = 2` and `a` moving from rank
1 to rank 2 (a change that does NOT cross the boundary), `a` is still retained
in the emitted report — the code applies no boundary post-filter; the crossing
test only drives the `changed` flag. -/
theorem C3_counterexample :
    notCrossed 2 (("a"), (1010 : ℤ), rk 1, rk 2) = true
    ∧ mapGet ("a") (getDiffs exCur3 exLb3 (some (3 * 2 / 2)))
        = some (("a"), (1010 : ℤ), rk 1, rk 2)
    ∧ ((trackChanges (some exCur3) (some 2) false exLb3 true).2.1).contains
        ("▼**2.** a (1010)") = true := by
  decide

/-- Claim C3 amended: with a cutoff boundary `n`, the report emitted by
`trackChanges` retains one message for EVERY entry of the two-pass diff
(which is computed over the first `⌊n × 1.5⌋` positions); entries that changed
rank without crossing the boundary are not filtered out — the boundary test
only sets the `changed` flag. -/
theorem C3_amended_no_postfilter (cur lb : List LeaderboardEntry) (n : ℕ) (changed : Bool)
    (hn : ¬ n = 0) :
    ((trackChanges (some cur) (some n) changed lb true).2.1).length
      = (getDiffs cur lb (some (3 * n / 2))).length := by
  simp only [trackChanges, if_neg hn]
  by_cases hd : (getDiffs cur lb (some (3 * n / 2))).isEmpty = true
  · rw [if_pos hd]
    rw [List.isEmpty_iff] at hd
    simp [hd]
  · rw [if_neg hd]
    simp only [tcStep_fold_length, sortByNewrank_length, List.length_map, List.length_nil]
    omega

/-- Witness for the amended C3 on the concrete lists of the counterexample. -/
theorem C3_amended_witness :
    ¬ (2 : ℕ) = 0
    ∧ ((trackChanges (some exCur3) (some 2) false exLb3 true).2.1).length
        = (getDiffs exCur3 exLb3 (some (3 * 2 / 2))).length :=
  ⟨by decide, C3_amended_no_postfilter exCur3 exLb3 2 false (by decide)⟩

/-! ### Claim C6: battle deduplication across pulls -/

/-- The recorded high-water mark is a nonempty id at least `r`. -/
def dominates (lastid : Option String) (r : String) : Prop :=
  ∃ s, lastid = some s ∧ s ≠ ("") ∧ r.data ≤ s.data

theorem skipCheck_eq_true_of_dominates {skipid : Option String} {r : String}
    (h : dominates skipid r) : skipCheck skipid r = true := by
  obtain ⟨s, rfl, hne, hle⟩ := h
  simp [skipCheck, hne, hle]

theorem mem_reported_loop {ts : TrackState} {skipid : Option String} :
    ∀ {rooms : List (String × Battle)} {lastid : Option String} {r : String},
      r ∈ (onQueryresponseLoop ts skipid rooms lastid).2 →
      skipCheck skipid r = false ∧ r ∈ rooms.map Prod.fst := by
  intro rooms
  induction rooms with
  | nil =>
    intro lastid r h
    simp [onQueryresponseLoop] at h
  | cons p rooms ih =>
    intro lastid r h
    obtain ⟨roomid, battle⟩ := p
    simp only [onQueryresponseLoop] at h
    by_cases hc :
        (!tracking ts battle ((getRating ts.lookup battle).1) || skipCheck skipid roomid) = true
    · rw [if_pos hc] at h
      obtain ⟨h1, h2⟩ := ih h
      exact ⟨h1, by simp [h2]⟩
    · rw [if_neg hc] at h
      have hc' : (!tracking ts battle ((getRating ts.lookup battle).1)
          || skipCheck skipid roomid) = false := by
        simpa using hc
      rcases List.mem_cons.mp h with rfl | hmem
      · exact ⟨(Bool.or_eq_false_iff.mp hc').2, by simp⟩
      · obtain ⟨h1, h2⟩ := ih hmem
        exact ⟨h1, by simp [h2]⟩

theorem not_reported_of_dominates {ts : TrackState} {skipid lastid : Option String}
    {rooms : List (String × Battle)} {r : String} (h : dominates skipid r) :
    r ∉ (onQueryresponseLoop ts skipid rooms lastid).2 := by
  intro hmem
  have h1 := (mem_reported_loop hmem).1
  rw [skipCheck_eq_true_of_dominates h] at h1
  exact Bool.noConfusion h1

theorem dominates_updateLastid {lastid : Option String} {r x : String}
    (h : dominates lastid r) (hx : x ≠ ("")) : dominates (updateLastid lastid x) r := by
  obtain ⟨s, rfl, hne, hle⟩ := h
  simp only [updateLastid]
  split_ifs with hcond
  · rcases hcond with hcond | hcond
    · exact absurd hcond hne
    · exact ⟨x, rfl, hx, le_trans hle (le_of_lt hcond)⟩
  · exact ⟨s, rfl, hne, hle⟩

theorem dominates_self_updateLastid {lastid : Option String} {r : String} (hr : r ≠ ("")) :
    dominates (updateLastid lastid r) r := by
  cases lastid with
  | none => exact ⟨r, rfl, hr, le_refl _⟩
  | some s =>
    simp only [updateLastid]
    split_ifs with hcond
    · exact ⟨r, rfl, hr, le_refl _⟩
    · push_neg at hcond
      exact ⟨s, rfl, hcond.1, hcond.2⟩

theorem loop_preserves_dominates {ts : TrackState} {skipid : Option String} :
    ∀ {rooms : List (String × Battle)} {lastid : Option String} {r : String},
      (∀ p ∈ rooms, p.1 ≠ ("")) → dominates lastid r →
      dominates (onQueryresponseLoop ts skipid rooms lastid).1 r := by
  intro rooms
  induction rooms with
  | nil =>
    intro lastid r _ h
    exact h
  | cons p rooms ih =>
    intro lastid r hall h
    obtain ⟨roomid, battle⟩ := p
    simp only [onQueryresponseLoop]
    split_ifs with hc
    · exact ih (fun q hq => hall q (List.mem_cons_of_mem _ hq)) h
    · exact ih (fun q hq => hall q (List.mem_cons_of_mem _ hq))
        (dominates_updateLastid h (hall (roomid, battle) (List.mem_cons_self _ _)))

theorem reported_dominated_final {ts : TrackState} {skipid : Option String} :
    ∀ {rooms : List (String × Battle)} {lastid : Option String} {r : String},
      (∀ p ∈ rooms, p.1 ≠ ("")) →
      r ∈ (onQueryresponseLoop ts skipid rooms lastid).2 →
      dominates (onQueryresponseLoop ts skipid rooms lastid).1 r := by
  intro rooms
  induction rooms with
  | nil =>
    intro lastid r _ h
    simp [onQueryresponseLoop] at h
  | cons p rooms ih =>
    intro lastid r hall h
    obtain ⟨roomid, battle⟩ := p
    simp only [onQueryresponseLoop] at h ⊢
    split_ifs at h ⊢ with hc
    · exact ih (fun q hq => hall q (List.mem_cons_of_mem _ hq)) h
    · rcases List.mem_cons.mp h with rfl | hmem
      · exact loop_preserves_dominates (fun q hq => hall q (List.mem_cons_of_mem _ hq))
          (dominates_self_updateLastid (hall (r, battle) (List.mem_cons_self _ _)))
      · exact ih (fun q hq => hall q (List.mem_cons_of_mem _ hq)) hmem

theorem loop_reported_sublist {ts : TrackState} {skipid : Option String} :
    ∀ {rooms : List (String × Battle)} {lastid : Option String},
      List.Sublist (onQueryresponseLoop ts skipid rooms lastid).2 (rooms.map Prod.fst) := by
  intro rooms
  induction rooms with
  | nil =>
    intro lastid
    simp [onQueryresponseLoop]
  | cons p rooms ih =>
    intro lastid
    obtain ⟨roomid, battle⟩ := p
    simp only [onQueryresponseLoop, List.map_cons]
    split_ifs with hc
    · exact List.Sublist.trans ih (List.sublist_cons_self _ _)
    · exact List.Sublist.cons₂ _ ih

theorem runPulls_not_reported :
    ∀ {pulls : List (TrackState × List (String × Battle))} {lastid : Option String} {r : String},
      (∀ pl ∈ pulls, ∀ q ∈ pl.2, q.1 ≠ ("")) → dominates lastid r →
      r ∉ (runPulls lastid pulls).2 := by
  intro pulls
  induction pulls with
  | nil =>
    intro lastid r _ _ h
    simp [runPulls] at h
  | cons pl pulls ih =>
    intro lastid r hall h hmem
    obtain ⟨ts, rooms⟩ := pl
    simp only [runPulls, onQueryresponse, List.mem_append] at hmem
    rcases hmem with hmem | hmem
    · exact not_reported_of_dominates h hmem
    · exact ih (fun q hq => hall q (List.mem_cons_of_mem _ hq))
        (loop_preserves_dominates (hall (ts, rooms) (List.mem_cons_self _ _)) h) hmem

theorem runPulls_nodup :
    ∀ {pulls : List (TrackState × List (String × Battle))} {lastid : Option String},
      (∀ pl ∈ pulls, (pl.2.map Prod.fst).Nodup ∧ ∀ q ∈ pl.2, q.1 ≠ ("")) →
      ((runPulls lastid pulls).2).Nodup := by
  intro pulls
  induction pulls with
  | nil =>
    intro lastid _
    simp [runPulls]
  | cons pl pulls ih =>
    intro lastid hall
    obtain ⟨ts, rooms⟩ := pl
    simp only [runPulls, onQueryresponse]
    rw [List.nodup_append]
    refine ⟨?_, ih (fun q hq => hall q (List.mem_cons_of_mem _ hq)), ?_⟩
    · exact (hall (ts, rooms) (List.mem_cons_self _ _)).1.sublist loop_reported_sublist
    · intro a ha hb
      have hkeys := (mem_reported_loop ha).2
      have hane : a ≠ ("") := by
        obtain ⟨q, hq, hq2⟩ := List.mem_map.mp hkeys
        exact hq2 ▸ (hall (ts, rooms) (List.mem_cons_self _ _)).2 q hq
      have hdom := reported_dominated_final
        ((hall (ts, rooms) (List.mem_cons_self _ _)).2) ha
      exact runPulls_not_reported (fun q hq => (hall q (List.mem_cons_of_mem _ hq)).2) hdom hb

/-- Claim C6: (a) in any pull cycle whose incoming high-water mark is the
(nonempty) id `m`, a battle room id that is not strictly greater than `m` is
never reported; (b) over any sequence of pulls (with arbitrary per-pull
tracking configuration, room objects having distinct nonempty keys), every
battle room is reported at most once. -/
theorem C6_battle_dedup (pulls : List (TrackState × List (String × Battle)))
    (h : ∀ pl ∈ pulls, (pl.2.map Prod.fst).Nodup ∧ ∀ q ∈ pl.2, q.1 ≠ ("")) :
    (∀ (ts : TrackState) (rooms : List (String × Battle)) (m r : String),
        m ≠ ("") → r.data ≤ m.data → r ∉ (onQueryresponse ts (some m) rooms).2)
    ∧ ((runPulls none pulls).2).Nodup := by
  constructor
  · intro ts rooms m r hm hle
    exact not_reported_of_dominates ⟨m, rfl, hm, hle⟩
  · exact runPulls_nodup h

def exTS6 : TrackState :=
  { users := [("foo")], pfx := "", rating := 0, cutoff := none, lookup := [] }

def exB6 : Battle := { p1 := "Foo", p2 := "Bar!", minElo := 1500 }

def exPulls6 : List (TrackState × List (String × Battle)) :=
  [(exTS6, [(("battle-gen1ou-1"), exB6)]), (exTS6, [(("battle-gen1ou-1"), exB6)])]

/-- Witness for C6: the same room pulled twice is reported exactly once, and a
room id equal to the high-water mark is skipped. -/
theorem C6_battle_dedup_witness :
    (∀ pl ∈ exPulls6, (pl.2.map Prod.fst).Nodup ∧ ∀ q ∈ pl.2, q.1 ≠ (""))
    ∧ ("battle-gen1ou-1")
        ∉ (onQueryresponse exTS6 (some ("battle-gen1ou-1"))
            [(("battle-gen1ou-1"), exB6)]).2
    ∧ ((runPulls none exPulls6).2).Nodup :=
  ⟨by decide,
   (C6_battle_dedup exPulls6 (by decide)).1 exTS6 [(("battle-gen1ou-1"), exB6)]
     ("battle-gen1ou-1") ("battle-gen1ou-1") (by decide) (by decide),
   (C6_battle_dedup exPulls6 (by decide)).2⟩

/-! ### Claim C7: the display rating -/

theorem avgNote_ne_minNote (r m : ℤ) : avgNote r ≠ minNote m := by
  intro h
  have hd := congrArg String.data h
  simp only [avgNote, minNote, String.data_append, List.append_assoc] at hd
  have hlen : ("(avg rating: ").data.length = ("(min rating: ").data.length := by decide
  have hpre := (List.append_inj hd hlen).1
  exact absurd hpre (by decide)

/-- Claim C7: if both players are in the lookup the rating is the rounded
average of their elos with the average note; with exactly one found whose elo
exceeds the battle's minimum-elo field, the rounded average of that elo and
the field, again with the average note; otherwise the minimum-elo field
verbatim with the minimum note; and the two notes are always distinct. -/
theorem C7_display_rating (lookup : Lookup) (battle : Battle) :
    (∀ a b, mapGet (toID battle.p1) lookup = some a →
        mapGet (toID battle.p2) lookup = some b →
        getRating lookup battle =
          (jsRound ((a.elo + b.elo : ℚ) / 2), avgNote (jsRound ((a.elo + b.elo : ℚ) / 2))))
    ∧ (∀ a, mapGet (toID battle.p1) lookup = some a →
        mapGet (toID battle.p2) lookup = none → battle.minElo < a.elo →
        getRating lookup battle =
          (jsRound ((a.elo + battle.minElo : ℚ) / 2),
            avgNote (jsRound ((a.elo + battle.minElo : ℚ) / 2))))
    ∧ (∀ b, mapGet (toID battle.p1) lookup = none →
        mapGet (toID battle.p2) lookup = some b → battle.minElo < b.elo →
        getRating lookup battle =
          (jsRound ((b.elo + battle.minElo : ℚ) / 2),
            avgNote (jsRound ((b.elo + battle.minElo : ℚ) / 2))))
    ∧ ((mapGet (toID battle.p1) lookup = none ∨ mapGet (toID battle.p2) lookup = none) →
        (∀ a, mapGet (toID battle.p1) lookup = some a → a.elo ≤ battle.minElo) →
        (∀ b, mapGet (toID battle.p2) lookup = some b → b.elo ≤ battle.minElo) →
        getRating lookup battle = (battle.minElo, minNote battle.minElo))
    ∧ (∀ r m, avgNote r ≠ minNote m) := by
  refine ⟨?_, ?_, ?_, ?_, fun r m => avgNote_ne_minNote r m⟩
  · intro a b h1 h2
    simp [getRating, h1, h2, averageRating]
  · intro a h1 h2 h3
    simp [getRating, h1, h2, if_pos h3, averageRating]
  · intro b h1 h2 h3
    simp [getRating, h1, h2, if_pos h3, averageRating]
  · intro hnone ha hb
    rcases hnone with h1 | h2
    · cases h2 : mapGet (toID battle.p2) lookup with
      | none => simp [getRating, h1, h2]
      | some b => simp [getRating, h1, h2, if_neg (not_lt.mpr (hb b h2))]
    · cases h1 : mapGet (toID battle.p1) lookup with
      | none => simp [getRating, h1, h2]
      | some a => simp [getRating, h1, h2, if_neg (not_lt.mpr (ha a h1))]

def e7 : LeaderboardEntry :=
  { name := "p1id", rank := none, elo := 1500, gxe := 0, glicko := 0, glickodev := 0 }

def lookup7 : Lookup := [(("p1id"), e7)]

def battle7 : Battle := { p1 := "P1id", p2 := "nobody", minElo := 1400 }

/-- Witness for C7: exactly one ranked player above the battle's minimum elo. -/
theorem C7_display_rating_witness :
    mapGet (toID battle7.p1) lookup7 = some e7
    ∧ mapGet (toID battle7.p2) lookup7 = none
    ∧ battle7.minElo < e7.elo
    ∧ getRating lookup7 battle7 =
        (jsRound ((e7.elo + battle7.minElo : ℚ) / 2),
          avgNote (jsRound ((e7.elo + battle7.minElo : ℚ) / 2))) :=
  ⟨by decide, by decide, by decide,
   (C7_display_rating lookup7 battle7).2.1 e7 (by decide) (by decide) (by decide)⟩

/-! ### Claim C8: scheduler start/stop -/

/-- The timer-count invariant of the scheduler. -/
def schedInv (s : SchedState) : Prop :=
  s.tickTimers = if s.started.isSome then 1 else 0

theorem schedInv_applyOp {s : SchedState} (h : schedInv s) (op : SchedOp) :
    schedInv (applyOp s op) := by
  cases op with
  | start =>
    by_cases hs : s.started.isSome = true
    · simpa [applyOp, startOp, hs] using h
    · simp only [schedInv, hs, if_false] at h
      simp [applyOp, startOp, hs, schedInv, h]
  | stop =>
    cases hs : s.started with
    | none => simpa [applyOp, stopOp, hs] using h
    | some t =>
      simp only [schedInv, hs, Option.isSome_some, if_true] at h
      simp [applyOp, stopOp, hs, schedInv, h]

theorem schedInv_runOps : ∀ (ops : List SchedOp) (s : SchedState),
    schedInv s → schedInv (runOps s ops) := by
  intro ops
  induction ops with
  | nil =>
    intro s h
    exact h
  | cons op ops ih =>
    intro s h
    exact ih (applyOp s op) (schedInv_applyOp h op)

/-- Claim C8: `start` while running and `stop` while stopped are literal
no-ops (the state is returned unchanged, so no second timer is armed and
nothing else changes), and every state reachable from the initial state by
start/stop commands has at most one armed tick timer. -/
theorem C8_sched_start_stop (rating : ℤ) (ops : List SchedOp) :
    (∀ s : SchedState, s.started.isSome = true → startOp s = s)
    ∧ (∀ s : SchedState, s.started = none → stopOp s = s)
    ∧ (runOps (initSched rating) ops).tickTimers ≤ 1 := by
  refine ⟨?_, ?_, ?_⟩
  · intro s hs
    simp [startOp, hs]
  · intro s hs
    simp [stopOp, hs]
  · have h0 : schedInv (initSched rating) := by simp [schedInv, initSched]
    have h := schedInv_runOps ops (initSched rating) h0
    rw [schedInv] at h
    rw [h]
    split_ifs <;> omega

def exRunning8 : SchedState :=
  { started := some 0, tickTimers := 1, nextHandle := 1, current := none, last := none,
    reports := [], rating := 0 }

/-- Witness for C8: a running state is untouched by `start`, and a
start-start-stop run never holds two timers. -/
theorem C8_sched_witness :
    (exRunning8.started.isSome = true ∧ startOp exRunning8 = exRunning8)
    ∧ (runOps (initSched 0) [SchedOp.start, SchedOp.start, SchedOp.stop]).tickTimers ≤ 1 :=
  ⟨⟨by decide,
    (C8_sched_start_stop 0 [SchedOp.start, SchedOp.start, SchedOp.stop]).1 exRunning8
      (by decide)⟩,
   (C8_sched_start_stop 0 [SchedOp.start, SchedOp.start, SchedOp.stop]).2.2⟩

/-! ### Claim C9: the empty-result pull -/

/-- Claim C9: on a successful pull whose prefix-filtered ranked list is empty,
the tick leaves `current`, `last` and `changed` untouched and emits no diff
report, yet the lookup table has already been replaced by the new pull's data
(so it can be out of sync with the retained snapshots). -/
theorem C9_empty_pull (e : Engine) (toplist : List RawEntry)
    (h : (getLeaderboard e.pfx toplist).1 = []) :
    (tick e toplist).1.current = e.current
    ∧ (tick e toplist).1.last = e.last
    ∧ (tick e toplist).1.changed = e.changed
    ∧ (tick e toplist).2 = none
    ∧ (tick e toplist).1.lookup = (getLeaderboard e.pfx toplist).2 := by
  have hlen : (getLeaderboard e.pfx toplist).1.length = 0 := by rw [h]; rfl
  simp [tick, hlen]

def eStale9 : LeaderboardEntry :=
  { name := "ltstale", rank := some 1, elo := 1111, gxe := 0, glicko := 0, glickodev := 0 }

def exEngine9 : Engine :=
  { lookup := [], current := some [eStale9], last := none, changed := false, pfx := "lt",
    cutoff := some 5, showdiffs := true }

def exToplist9 : List RawEntry :=
  [{ username := "Zed", userid := "zed", elo := 1200, gxe := 0, rpr := 0, rprd := 0 }]

/-- Witness for C9: a pull matching no prefixed player leaves the stale
`current` snapshot in place while the lookup is replaced (and nonempty). -/
theorem C9_empty_pull_witness :
    (getLeaderboard exEngine9.pfx exToplist9).1 = []
    ∧ (tick exEngine9 exToplist9).1.current = exEngine9.current
    ∧ (tick exEngine9 exToplist9).2 = none
    ∧ (tick exEngine9 exToplist9).1.lookup = (getLeaderboard exEngine9.pfx exToplist9).2
    ∧ (tick exEngine9 exToplist9).1.lookup ≠ []
    ∧ exEngine9.current = some [eStale9] :=
  ⟨by decide,
   (C9_empty_pull exEngine9 exToplist9 (by decide)).1,
   (C9_empty_pull exEngine9 exToplist9 (by decide)).2.2.2.1,
   (C9_empty_pull exEngine9 exToplist9 (by decide)).2.2.2.2,
   by decide, rfl⟩

/-! ### Claim C10: the minimum-rating command -/

/-- Claim C10: the `elo`/`rating` command stores its argument only when it
parses to a nonzero number; `"0"`, a parse to 0, or a non-numeric argument
leave the stored rating unchanged, and a nonzero stored rating can never be
taken back to 0 through the command. -/
theorem C10_rating_command (r : ℚ) (arg : String) :
    (∀ q, jsNumber arg = some q → ¬ q = 0 → onChatRating r arg = q)
    ∧ onChatRating r ("0") = r
    ∧ (jsNumber arg = none → onChatRating r arg = r)
    ∧ (jsNumber arg = some 0 → onChatRating r arg = r)
    ∧ (¬ r = 0 → ¬ onChatRating r arg = 0) := by
  refine ⟨?_, ?_, ?_, ?_, ?_⟩
  · intro q h hq
    simp [onChatRating, h, hq]
  · have h0 : jsNumber ("0") = some 0 := by decide
    simp [onChatRating, h0]
  · intro h
    simp [onChatRating, h]
  · intro h
    simp [onChatRating, h]
  · intro hr
    cases h : jsNumber arg with
    | none => simpa [onChatRating, h] using hr
    | some q =>
      by_cases hq : q = 0
      · simpa [onChatRating, h, hq] using hr
      · simp [onChatRating, h, hq]

/-- Witness for C10 on `"1500"`, `"abc"` and `"0"`. -/
theorem C10_rating_command_witness :
    jsNumber ("1500") = some 1500
    ∧ onChatRating 0 ("1500") = 1500
    ∧ jsNumber ("abc") = none
    ∧ onChatRating 1500 ("abc") = 1500
    ∧ onChatRating 1500 ("0") = 1500 :=
  ⟨by decide,
   (C10_rating_command 0 ("1500")).1 1500 (by decide) (by decide),
   by decide,
   (C10_rating_command 1500 ("abc")).2.2.1 (by decide),
   (C10_rating_command 1500 ("0")).2.1⟩

end Posho9000
